import Mathlib

/-!
Verification of the `foc` Hash Array Mapped Trie
(`src/hash_array_mapped_trie.h`) against its specification.

The file is a shallow embedding of the header: 32-bit machine words are `Nat`
with explicit `% 2 ^ 32` where overflow matters, the population-compressed
child arrays are lists of live nodes in physical order, and the (genuinely
nonterminating on some inputs) recursion of `insertEntry` is fuel-bounded,
with fuel exhaustion kept apart from a `nullptr` return.  Line numbers in the
doc comments refer to `src/hash_array_mapped_trie.h`.
-/

namespace Foc

/-- Fuel-bounded population count: `popcountAux f n` counts the set bits among
the low `f` bits of `n`. -/
def popcountAux : Nat → Nat → Nat
  | 0, _ => 0
  | f + 1, n => n % 2 + popcountAux f (n / 2)

/-- Population count of a 32-bit word (`__builtin_popcount` on a `uint32_t`). -/
def popcount (n : Nat) : Nat := popcountAux 32 n

/-- `BitmapTrieTemplate::physicalIndex` (lines 87-91):
`popcount(bitmap & ((1 << logical_index) - 1))`. -/
def physicalIndex (bitmap logical_index : Nat) : Nat :=
  popcount (bitmap &&& ((1 <<< logical_index) - 1))

/-- `HashArrayMappedTrie::next_seed` (527-532): the xorshift32 sequence
`s ^= s << 13; s ^= s >> 17; s ^= s << 5` on a `uint32_t`. -/
def next_seed (seed : Nat) : Nat :=
  let s1 := (seed ^^^ (seed <<< 13)) % 2 ^ 32
  let s2 := s1 ^^^ (s1 >>> 17)
  (s2 ^^^ (s2 <<< 5)) % 2 ^ 32

/-- `HashArrayMappedTrie::hash32` (534-536): `seed ^ hasher(key)`; the
`uint32_t` seed is zero-extended to the 64-bit hash width and the result is
truncated back to `uint32_t`. -/
def hash32 {K : Type} (hasher : K → Nat) (key : K) (seed : Nat) : Nat :=
  (seed ^^^ hasher key) % 2 ^ 32

/-- The five-bit slice `(hash >> hash_offset) & 0x1f` consumed at one level. -/
def hashSlice (hash hash_offset : Nat) : Nat := (hash >>> hash_offset) &&& 0x1f

/-- The hash-exhaustion step that `findNode` (433-439) and `insertEntry`
(472-478 and 493-504) perform verbatim before descending past an Interior
node: while `hash_offset < 25` advance the offset by 5 keeping seed and hash;
otherwise reset the offset to 0, derive the next seed by xorshift32 and
recompute the hash of the key under the new seed.  Returns the new
(seed, hash, hash_offset). -/
def hashStep {K : Type} (hasher : K → Nat) (key : K) (seed hash hash_offset : Nat) :
    Nat × Nat × Nat :=
  if hash_offset < 25 then (seed, hash, hash_offset + 5)
  else (next_seed seed, hash32 hasher key (next_seed seed), 0)

/-- The (seed, hash, hash_offset) triple in effect after `n` descents past
Interior nodes, starting a lookup or insertion for `key` with top-level seed
`s0` (both start with `hash = hash32 key s0`, `hash_offset = 0` and step with
`hashStep`). -/
def descendState {K : Type} (hasher : K → Nat) (key : K) (s0 : Nat) : Nat → Nat × Nat × Nat
  | 0 => (s0, hash32 hasher key s0, 0)
  | n + 1 =>
    let st := descendState hasher key s0 n
    hashStep hasher key st.1 st.2.1 st.2.2

/-- `NodeTemplate` (131-195): a node is either a Leaf holding an entry or an
Interior holding a bitmap trie.  The C++ Interior keeps the bitmap, a capacity
and a pointer to an array whose first `popcount bitmap` cells are live; the
embedding keeps the bitmap and the list of live children in physical order.
Capacity and the parent back-pointer have no effect on the logical contents
(capacity only routes through the allocator, modelled where claim C7 needs it
in `BitmapTrie`). -/
inductive Node (K V : Type) where
  | entry (key : K) (val : V)
  | trie (bitmap : Nat) (children : List (Node K V))

/-- Structural invariant of a node (spec P6): every Interior bitmap is a 32-bit
word whose popcount equals the number of live children, recursively. -/
inductive NodeWF {K V : Type} : Node K V → Prop where
  | entry (key : K) (val : V) : NodeWF (.entry key val)
  | trie (bitmap : Nat) (children : List (Node K V))
      (hbm : bitmap < 2 ^ 32)
      (hlen : children.length = popcount bitmap)
      (hch : ∀ c ∈ children, NodeWF c) :
      NodeWF (.trie bitmap children)

/-- Result of `HashArrayMappedTrie::insertEntry`: `out` marks fuel exhaustion
(the C++ recursion genuinely fails to terminate on some inputs, e.g. two keys
whose hashes differ only in bits 30-31), `null` a `nullptr` return carrying the
subtree as left by the failed call, `ok` a non-null return carrying the updated
subtree. -/
inductive InsRes (K V : Type) where
  | out
  | null (t : Node K V)
  | ok (t : Node K V)

/-- `HashArrayMappedTrie::findNode` (411-446), fuel-bounded, generalized to
start at any node with any (seed, hash, hash_offset) state; returns the entry
of the leaf that matched the key.  The C++ loop tests
`trie->logicalPositionTaken(t)`, returns the entry node if the slot holds an
entry with an equal key (null for an unequal key), and otherwise steps the hash
state and descends. -/
def findNode {K V : Type} (keq : K → K → Bool) (hasher : K → Nat) :
    Nat → K → Node K V → Nat → Nat → Nat → Option (K × V)
  | 0, _, _, _, _, _ => none
  | _ + 1, _, .entry _ _, _, _, _ => none
  | fuel + 1, key, .trie bitmap children, seed, hash, hash_offset =>
    if bitmap.testBit (hashSlice hash hash_offset) = false then none
    else
      match children[physicalIndex bitmap (hashSlice hash hash_offset)]? with
      | none => none
      | some (.entry ekey ev) => if keq ekey key then some (ekey, ev) else none
      | some (.trie cb cc) =>
        findNode keq hasher fuel key (.trie cb cc)
          (hashStep hasher key seed hash hash_offset).1
          (hashStep hasher key seed hash hash_offset).2.1
          (hashStep hasher key seed hash hash_offset).2.2

/-- `HashArrayMappedTrie::insertEntry` (456-519), fuel-bounded.  Allocation is
modelled as always succeeding at this level (claim C7 models the allocator).
The branches, in source order:
empty slot (465-467) -- delegate to `BitmapTrieTemplate::insertEntry`, which
places the new leaf at the physical index of the slot;
Interior child (470-480) -- step the hash state and recurse;
equal key (483-488) -- overwrite the value in place (the stored key is kept);
split (492-518) -- step the hash state, compute the old entry's hash under the
(possibly reseeded) seed, fail with null if a reseed found the two hashes equal
(501-503, before any mutation), otherwise replace the leaf by a fresh empty
trie (capacity 2 in the C++), reinsert the old entry, restore the old entry and
fail if that reinsertion failed (512-517), then insert the new entry; a null
from that last insertion propagates without restoring (518). -/
def insertEntry {K V : Type} (keq : K → K → Bool) (hasher : K → Nat) :
    Nat → Node K V → K → V → Nat → Nat → Nat → InsRes K V
  | 0, _, _, _, _, _, _ => .out
  | _ + 1, .entry _ _, _, _, _, _, _ => .out
  | fuel + 1, .trie bitmap children, key, v, seed, hash, hash_offset =>
    if bitmap.testBit (hashSlice hash hash_offset) = false then
      .ok (.trie (bitmap ||| (1 <<< hashSlice hash hash_offset))
            (children.insertIdx (physicalIndex bitmap (hashSlice hash hash_offset))
              (.entry key v)))
    else
      match children[physicalIndex bitmap (hashSlice hash hash_offset)]? with
      | none => .out
      | some (.trie cb cc) =>
        match insertEntry keq hasher fuel (.trie cb cc) key v
            (hashStep hasher key seed hash hash_offset).1
            (hashStep hasher key seed hash hash_offset).2.1
            (hashStep hasher key seed hash hash_offset).2.2 with
        | .out => .out
        | .null t1 =>
          .null (.trie bitmap
            (children.set (physicalIndex bitmap (hashSlice hash hash_offset)) t1))
        | .ok t1 =>
          .ok (.trie bitmap
            (children.set (physicalIndex bitmap (hashSlice hash hash_offset)) t1))
      | some (.entry okey oval) =>
        if keq okey key then
          .ok (.trie bitmap
            (children.set (physicalIndex bitmap (hashSlice hash hash_offset))
              (.entry okey v)))
        else
          if 25 ≤ hash_offset ∧
              (hashStep hasher key seed hash hash_offset).2.1 =
                hash32 hasher okey (hashStep hasher key seed hash hash_offset).1 then
            .null (.trie bitmap children)
          else
            match insertEntry keq hasher fuel (.trie 0 []) okey oval
                (hashStep hasher key seed hash hash_offset).1
                (hash32 hasher okey (hashStep hasher key seed hash hash_offset).1)
                (hashStep hasher key seed hash hash_offset).2.2 with
            | .out => .out
            | .null _ => .null (.trie bitmap children)
            | .ok t1 =>
              match insertEntry keq hasher fuel t1 key v
                  (hashStep hasher key seed hash hash_offset).1
                  (hashStep hasher key seed hash hash_offset).2.1
                  (hashStep hasher key seed hash hash_offset).2.2 with
              | .out => .out
              | .null t2 =>
                .null (.trie bitmap
                  (children.set (physicalIndex bitmap (hashSlice hash hash_offset)) t2))
              | .ok t2 =>
                .ok (.trie bitmap
                  (children.set (physicalIndex bitmap (hashSlice hash hash_offset)) t2))

/-- `HashArrayMappedTrie` (253-564): entry count, root node (always an
Interior) and current seed.  The hasher and key equality functors are passed to
the operations. -/
structure HashArrayMappedTrie (K V : Type) where
  count : Nat
  root : Node K V
  seed : Nat

/-- The default seed `static_cast<uint32_t>(0xff51afd7ed558ccd)` (37, 846). -/
def defaultSeed : Nat := 0xED558CCD

/-- The constructor (841-850): count 0, root a fresh Interior (bitmap 0, no
live children; only capacity is preallocated, which has no logical effect),
seed from the build-time macro. -/
def HashArrayMappedTrie.empty (K V : Type) : HashArrayMappedTrie K V :=
  ⟨0, .trie 0 [], defaultSeed⟩

/-- Result of the public `insert` (378-386): `out` is fuel exhaustion, `failed`
a null iterator return (the count is not incremented but the tree keeps any
mutation made by the failed `insertEntry`), `ok` a non-null iterator return
(the count is incremented -- also on the overwrite path; see claims C1/C6). -/
inductive TopRes (K V : Type) where
  | out
  | failed (h : HashArrayMappedTrie K V)
  | ok (h : HashArrayMappedTrie K V)

/-- Whether `insert` returned a non-null iterator. -/
def TopRes.isOk {K V : Type} : TopRes K V → Bool
  | .ok _ => true
  | _ => false

/-- Whether `insert` returned the null iterator (as opposed to running out of
fuel or succeeding). -/
def TopRes.isFailed {K V : Type} : TopRes K V → Bool
  | .failed _ => true
  | _ => false

/-- Key equality used by the concrete claim-level evaluations (`std::equal_to`
over integer keys). -/
def natKeyEq : Nat → Nat → Bool := fun a b => a == b

/-- Identity hasher over integer keys, as `IdentityFunction` in
`hash_array_mapped_trie_test_helpers.h`. -/
def natIdHasher : Nat → Nat := fun x => x

/-- `HashArrayMappedTrie::insert` (378-386): hash the key under the current
seed, call `insertEntry` on the root with `hash_offset = 0`, return a null
iterator on `nullptr` and otherwise increment `_count`. -/
def HashArrayMappedTrie.insert {K V : Type} (keq : K → K → Bool) (hasher : K → Nat)
    (fuel : Nat) (h : HashArrayMappedTrie K V) (key : K) (v : V) : TopRes K V :=
  match insertEntry keq hasher fuel h.root key v h.seed (hash32 hasher key h.seed) 0 with
  | .out => .out
  | .null t => .failed ⟨h.count, t, h.seed⟩
  | .ok t => .ok ⟨h.count + 1, t, h.seed⟩

/-- `HashArrayMappedTrie::find` (448-454): the value of the node found by
`findNode` starting at the root with the current seed and `hash_offset = 0`. -/
def HashArrayMappedTrie.find {K V : Type} (keq : K → K → Bool) (hasher : K → Nat)
    (fuel : Nat) (h : HashArrayMappedTrie K V) (key : K) : Option V :=
  (findNode keq hasher fuel key h.root h.seed (hash32 hasher key h.seed) 0).map
    (fun e => e.2)

/-- `HashArrayMappedTrie::clear` (396-399): count 0 and an empty root trie
(bitmap 0, capacity 0, null base); the seed is kept. -/
def HashArrayMappedTrie.clear {K V : Type} (h : HashArrayMappedTrie K V) :
    HashArrayMappedTrie K V :=
  ⟨0, .trie 0 [], h.seed⟩

/-- Test-harness step: perform `insert` and keep the resulting container
whether or not the returned iterator was null (the C++ `insert` mutates the
container it was called on; on fuel exhaustion keep the input). -/
def HashArrayMappedTrie.afterInsert {K V : Type} (keq : K → K → Bool) (hasher : K → Nat)
    (fuel : Nat) (h : HashArrayMappedTrie K V) (key : K) (v : V) :
    HashArrayMappedTrie K V :=
  match HashArrayMappedTrie.insert keq hasher fuel h key v with
  | .out => h
  | .failed h2 => h2
  | .ok h2 => h2

/-- A sequence of insertions applied in order. -/
def HashArrayMappedTrie.insertSeq {K V : Type} (keq : K → K → Bool) (hasher : K → Nat)
    (fuel : Nat) (h : HashArrayMappedTrie K V) : List (K × V) → HashArrayMappedTrie K V
  | [] => h
  | e :: rest =>
    HashArrayMappedTrie.insertSeq keq hasher fuel
      (HashArrayMappedTrie.afterInsert keq hasher fuel h e.1 e.2) rest

/-- The copy constructor (856-859) delegates to the
`(const HashArrayMappedTrie &, const allocator_type &)` overload (861-866),
whose whole body is `assert(false)`; no member besides the allocator is
initialized and nothing is cloned.  Modelled as always aborting (`none`). -/
def HashArrayMappedTrie.copyConstruct {K V : Type} (_h : HashArrayMappedTrie K V) :
    Option (HashArrayMappedTrie K V) :=
  none

/-- Number of Leaf nodes reachable from a node, fuel-bounded (any fuel
exceeding the tree depth counts them all; the trees in the theorems using it
are concrete). -/
def leafCount {K V : Type} : Nat → Node K V → Nat
  | 0, _ => 0
  | _ + 1, .entry _ _ => 1
  | fuel + 1, .trie _ children => (children.map (fun c => leafCount fuel c)).sum

/-- The child of an Interior node at a logical slot: `logicalGet` guarded by
`logicalPositionTaken` (97-103). -/
def Node.childAt {K V : Type} (t : Node K V) (logical_index : Nat) : Option (Node K V) :=
  match t with
  | .entry _ _ => none
  | .trie bitmap children =>
    if bitmap.testBit logical_index then children[physicalIndex bitmap logical_index]?
    else none

/-- `NodeTemplate::isEntry` (162) as a Boolean on the embedded node. -/
def Node.isEntryB {K V : Type} : Node K V → Bool
  | .entry _ _ => true
  | .trie _ _ => false

/-- `NodeTemplate::nextEntryNode` (191-194): a stub that returns `this`. -/
def Node.nextEntryNode {K V : Type} (n : Node K V) : Node K V := n

/-- `HAMTConstForwardIterator` (200-246): wraps a node pointer (`none` is the
null iterator); equality compares the wrapped pointer. -/
structure HAMTConstForwardIterator (K V : Type) where
  node : Option (Node K V)

/-- `operator++` (223-226): `_node = _node->nextEntryNode()`. -/
def HAMTConstForwardIterator.inc {K V : Type} (it : HAMTConstForwardIterator K V) :
    HAMTConstForwardIterator K V :=
  ⟨it.node.map Node.nextEntryNode⟩

/-- The `alloc_sizes_by_level` table (573-580), indexed `[level][generation]`. -/
def alloc_sizes_by_level : List (List Nat) :=
  [[2, 3, 5, 8, 13, 21, 29, 32, 32, 32, 32, 32, 32, 32, 32, 32, 32, 32, 32, 32, 32, 32, 32],
   [1, 1, 1, 1, 1, 2, 3, 5, 8, 13, 21, 29, 32, 32, 32, 32, 32, 32, 32, 32, 32, 32, 32],
   [1, 1, 1, 1, 1, 1, 1, 1, 1, 1, 2, 3, 5, 8, 13, 21, 29, 32, 32, 32, 32, 32, 32],
   [1, 1, 1, 1, 1, 1, 1, 1, 1, 1, 1, 1, 1, 1, 1, 2, 3, 5, 8, 13, 21, 29, 32],
   [1, 1, 1, 1, 1, 1, 1, 1, 1, 1, 1, 1, 1, 1, 1, 1, 1, 1, 1, 1, 1, 1, 1]]

/-- The `alloc_sizes` table (581-584): fallback capacity per required
population, indexed 0..32. -/
def alloc_sizes : List Nat :=
  [1, 1, 2, 3, 5, 5, 8, 8, 8, 13, 13, 13, 13, 13, 21, 21, 21, 21, 21, 21, 21, 21,
   29, 29, 29, 29, 29, 29, 29, 29, 32, 32, 32]

/-- `hamt_trie_allocation_size` (570-610).  For `x >= 1` the C++ expression
`64 - __builtin_clzll(x)` is the bit length of `x`, i.e. `Nat.log2 x + 1`;
the computed generation is then clamped to 22.  Levels above 4 use row 4 with
generation 0. -/
def hamt_trie_allocation_size (required expected_hamt_size level : Nat) : Nat :=
  let lv := if 4 < level then 4 else level
  let generation :=
    if 4 < level then 0
    else if expected_hamt_size - 1 = 0 then 0
    else min (Nat.log2 (expected_hamt_size - 1) + 1) 22
  let guess := (alloc_sizes_by_level.getD lv []).getD generation 0
  if guess < required then alloc_sizes.getD required 0 else guess

/-- The sizing-oracle formula as the specification words it (claim C8):
`max(by_required[required], per_level[min(level,4)][generation])` with
`generation = min(22, ceil(log2(expected_size)))`. -/
def allocSizeSpec (required expected level : Nat) : Nat :=
  max (alloc_sizes.getD required 0)
    ((alloc_sizes_by_level.getD (min level 4) []).getD (min 22 (Nat.clog 2 expected)) 0)

/-- `BitmapTrieTemplate` (52-128) as used by its `insertEntry` (616-666):
bitmap, capacity, and the live cells of the node array in physical order.
Cells past the first `popcount bitmap` are uninitialized in the C++ and are not
modelled; a null `base` coincides with the empty list.  The payload is
abstract: the leaf the C++ constructs in place is `Node(new_entry, parent)`. -/
structure BitmapTrie (α : Type) where
  bitmap : Nat
  capacity : Nat
  base : List α

/-- `BitmapTrieTemplate::insertEntry` (616-666).  `allocOk` says whether the
single potential allocator call succeeds; when growth is needed and the
allocator fails, the C++ returns null before any store.  Both the grow branch
(copy `[0,i)` unchanged and `[i,sz)` shifted up by one, 643-648) and the
in-place branch (shift `[i,sz)` up by one, 655-657) place the new leaf at
physical index `i`, i.e. realize an insertion at position `i` in the live
prefix; afterwards the bitmap bit is set (662) and the leaf constructed (665). -/
def BitmapTrie.insertEntry {α : Type} (allocOk : Bool) (t : BitmapTrie α)
    (logical_index : Nat) (x : α) (expected_hamt_size level : Nat) :
    Option (BitmapTrie α) :=
  let i := physicalIndex t.bitmap logical_index
  let required := popcount t.bitmap + 1
  if t.capacity < required then
    if allocOk = false then none
    else
      some ⟨t.bitmap ||| (1 <<< logical_index),
            hamt_trie_allocation_size required expected_hamt_size level,
            t.base.insertIdx i x⟩
  else
    some ⟨t.bitmap ||| (1 <<< logical_index), t.capacity, t.base.insertIdx i x⟩

/-! Bit-level toolkit: the popcount function defined above agrees with counting
set bits over `Finset.range 32`, which makes the index arithmetic of the bitmap
compression provable with finite-set cardinality lemmas. -/

theorem popcountAux_eq_countP (f : Nat) :
    ∀ n : Nat, popcountAux f n = (List.range f).countP (fun i => n.testBit i) := by
  induction f with
  | zero => intro n; simp [popcountAux]
  | succ f ih =>
    intro n
    rw [popcountAux, ih (n / 2), List.range_succ_eq_map, List.countP_cons, List.countP_map]
    have h1 : ((fun i => n.testBit i) ∘ Nat.succ) = fun i => (n / 2).testBit i := by
      funext i
      simp [Nat.testBit_add_one, Nat.succ_eq_add_one]
    have h2 : (if n.testBit 0 then 1 else 0) = n % 2 := by
      rcases Nat.mod_two_eq_zero_or_one n with h | h <;> simp [Nat.testBit_zero, h]
    rw [h1, h2]
    omega

theorem countP_range_eq_card (n : Nat) (p : Nat → Bool) :
    (List.range n).countP p = ((Finset.range n).filter (fun i => p i = true)).card := by
  induction n with
  | zero => simp
  | succ n ih =>
    rw [List.range_succ, List.countP_append, Finset.range_succ, Finset.filter_insert]
    by_cases h : p n = true
    · rw [if_pos h, Finset.card_insert_of_not_mem (by simp)]
      simp [h, ih]
    · rw [if_neg h]
      simp only [List.countP_cons, List.countP_nil, h]
      simp [ih]

theorem popcount_eq_card (n : Nat) :
    popcount n = ((Finset.range 32).filter (fun i => n.testBit i = true)).card := by
  rw [popcount, popcountAux_eq_countP, countP_range_eq_card]

theorem testBit_one_shiftLeft (s t : Nat) : (1 <<< s).testBit t = decide (s = t) := by
  rw [Nat.one_shiftLeft]
  exact Nat.testBit_two_pow

theorem testBit_maskBelow (bitmap s i : Nat) :
    (bitmap &&& ((1 <<< s) - 1)).testBit i = (bitmap.testBit i && decide (i < s)) := by
  rw [Nat.one_shiftLeft, Nat.testBit_and, Nat.testBit_two_pow_sub_one]

theorem physicalIndex_eq_card (bitmap s : Nat) :
    physicalIndex bitmap s =
      ((Finset.range 32).filter
        (fun i => (bitmap.testBit i && decide (i < s)) = true)).card := by
  rw [physicalIndex, popcount_eq_card]
  congr 1
  apply Finset.filter_congr
  intro i _
  rw [testBit_maskBelow]

theorem hashSlice_lt (hash off : Nat) : hashSlice hash off < 32 := by
  have h : hashSlice hash off ≤ 31 := Nat.and_le_right
  omega

theorem popcount_le_32 (n : Nat) : popcount n ≤ 32 := by
  rw [popcount_eq_card]
  calc ((Finset.range 32).filter (fun i => n.testBit i = true)).card
      ≤ (Finset.range 32).card := Finset.card_le_card (Finset.filter_subset _ _)
    _ = 32 := Finset.card_range 32

theorem popcount_le_31 (bitmap s : Nat) (hs : s < 32) (hbit : bitmap.testBit s = false) :
    popcount bitmap ≤ 31 := by
  rw [popcount_eq_card]
  have hsub : (Finset.range 32).filter (fun i => bitmap.testBit i = true) ⊆
      (Finset.range 32).erase s := by
    intro i hi
    simp only [Finset.mem_filter, Finset.mem_range] at hi
    refine Finset.mem_erase.mpr ⟨?_, by simp [hi.1]⟩
    intro hcontra
    rw [hcontra] at hi
    rw [hi.2] at hbit
    exact Bool.noConfusion hbit
  calc ((Finset.range 32).filter (fun i => bitmap.testBit i = true)).card
      ≤ ((Finset.range 32).erase s).card := Finset.card_le_card hsub
    _ = 31 := by rw [Finset.card_erase_of_mem (Finset.mem_range.mpr hs), Finset.card_range]

theorem physicalIndex_le (bitmap s : Nat) : physicalIndex bitmap s ≤ popcount bitmap := by
  rw [physicalIndex_eq_card, popcount_eq_card]
  apply Finset.card_le_card
  intro i hi
  simp only [Finset.mem_filter, Bool.and_eq_true, decide_eq_true_eq] at hi ⊢
  exact ⟨hi.1, hi.2.1⟩

theorem physicalIndex_lt (bitmap s : Nat) (hs : s < 32) (hbit : bitmap.testBit s = true) :
    physicalIndex bitmap s < popcount bitmap := by
  rw [physicalIndex_eq_card, popcount_eq_card]
  apply Finset.card_lt_card
  rw [Finset.ssubset_def]
  constructor
  · intro i hi
    simp only [Finset.mem_filter, Bool.and_eq_true, decide_eq_true_eq] at hi ⊢
    exact ⟨hi.1, hi.2.1⟩
  · intro hsup
    have hmem : s ∈ (Finset.range 32).filter (fun i => bitmap.testBit i = true) := by
      simp [Finset.mem_filter, Finset.mem_range, hs, hbit]
    have := hsup hmem
    simp only [Finset.mem_filter, Bool.and_eq_true, decide_eq_true_eq] at this
    omega

theorem physicalIndex_mono (bitmap j s : Nat) (hj : j < s) (hjlt : j < 32)
    (hbit : bitmap.testBit j = true) :
    physicalIndex bitmap j < physicalIndex bitmap s := by
  rw [physicalIndex_eq_card, physicalIndex_eq_card]
  apply Finset.card_lt_card
  rw [Finset.ssubset_def]
  constructor
  · intro i hi
    simp only [Finset.mem_filter, Bool.and_eq_true, decide_eq_true_eq] at hi ⊢
    exact ⟨hi.1, hi.2.1, by omega⟩
  · intro hsup
    have hmem : j ∈ (Finset.range 32).filter
        (fun i => (bitmap.testBit i && decide (i < s)) = true) := by
      simp [Finset.mem_filter, Finset.mem_range, hjlt, hbit, hj]
    have := hsup hmem
    simp only [Finset.mem_filter, Bool.and_eq_true, decide_eq_true_eq] at this
    omega

theorem physicalIndex_ne (bitmap j s : Nat) (hne : j ≠ s) (hjlt : j < 32) (hslt : s < 32)
    (hbj : bitmap.testBit j = true) (hbs : bitmap.testBit s = true) :
    physicalIndex bitmap j ≠ physicalIndex bitmap s := by
  rcases Nat.lt_or_ge j s with h | h
  · exact Nat.ne_of_lt (physicalIndex_mono bitmap j s h hjlt hbj)
  · have hlt : s < j := by omega
    exact (Nat.ne_of_lt (physicalIndex_mono bitmap s j hlt hslt hbs)).symm

theorem popcount_or_two_pow (bitmap s : Nat) (hs : s < 32)
    (hbit : bitmap.testBit s = false) :
    popcount (bitmap ||| (1 <<< s)) = popcount bitmap + 1 := by
  rw [popcount_eq_card, popcount_eq_card]
  have hcongr : (Finset.range 32).filter (fun i => (bitmap ||| (1 <<< s)).testBit i = true) =
      (Finset.range 32).filter (fun i => bitmap.testBit i = true ∨ s = i) := by
    apply Finset.filter_congr
    intro i _
    simp [Nat.testBit_or, Nat.one_shiftLeft, Nat.testBit_two_pow]
  rw [hcongr, Finset.filter_or, Finset.card_union_of_disjoint]
  · have heq : (Finset.range 32).filter (fun i => s = i) = {s} := by
      rw [Finset.filter_eq]
      simp [Finset.mem_range, hs]
    rw [heq, Finset.card_singleton]
  · rw [Finset.disjoint_left]
    intro i hi hi2
    simp only [Finset.mem_filter] at hi hi2
    rw [← hi2.2] at hi
    rw [hi.2] at hbit
    exact Bool.noConfusion hbit

theorem physicalIndex_or_two_pow (bitmap s t : Nat) (hts : t ≤ s) :
    physicalIndex (bitmap ||| (1 <<< s)) t = physicalIndex bitmap t := by
  rw [physicalIndex_eq_card, physicalIndex_eq_card]
  congr 1
  apply Finset.filter_congr
  intro i _
  simp only [Nat.testBit_or, testBit_one_shiftLeft]
  by_cases hlt : i < t
  · have : s ≠ i := by omega
    simp [hlt, this]
  · simp [hlt]

theorem popcount_zero : popcount 0 = 0 := by decide

theorem physicalIndex_two_pow_self (s : Nat) : physicalIndex (1 <<< s) s = 0 := by
  rw [physicalIndex, Nat.one_shiftLeft, Nat.and_pow_two_sub_one_eq_mod, Nat.mod_self]
  exact popcount_zero

theorem getElem?_insertIdx_self {α : Type} (l : List α) (x : α) (i : Nat)
    (h : i ≤ l.length) :
    (l.insertIdx i x)[i]? = some x := by
  rw [List.getElem?_eq_getElem (by rw [List.length_insertIdx _ _ h]; omega)]
  rw [List.getElem_insertIdx_self l x i h]

/-! Branch characterizations of `findNode` and `insertEntry`, one per source
branch, used by the inductions below. -/

theorem findNode_miss {K V : Type} {keq : K → K → Bool} {hasher : K → Nat}
    {fuel bitmap : Nat} {children : List (Node K V)} {key : K} {seed hash off : Nat}
    (hbit : bitmap.testBit (hashSlice hash off) = false) :
    findNode keq hasher (fuel + 1) key (.trie bitmap children) seed hash off = none := by
  simp [findNode, hbit]

theorem findNode_child_none {K V : Type} {keq : K → K → Bool} {hasher : K → Nat}
    {fuel bitmap : Nat} {children : List (Node K V)} {key : K} {seed hash off : Nat}
    (hbit : bitmap.testBit (hashSlice hash off) = true)
    (hchild : children[physicalIndex bitmap (hashSlice hash off)]? = none) :
    findNode keq hasher (fuel + 1) key (.trie bitmap children) seed hash off = none := by
  simp [findNode, hbit, hchild]

theorem findNode_leaf {K V : Type} {keq : K → K → Bool} {hasher : K → Nat}
    {fuel bitmap : Nat} {children : List (Node K V)} {ekey : K} {ev : V} {key : K}
    {seed hash off : Nat}
    (hbit : bitmap.testBit (hashSlice hash off) = true)
    (hchild : children[physicalIndex bitmap (hashSlice hash off)]? =
      some (.entry ekey ev)) :
    findNode keq hasher (fuel + 1) key (.trie bitmap children) seed hash off =
      if keq ekey key then some (ekey, ev) else none := by
  simp [findNode, hbit, hchild]

theorem findNode_descend {K V : Type} {keq : K → K → Bool} {hasher : K → Nat}
    {fuel bitmap cb : Nat} {children cc : List (Node K V)} {key : K}
    {seed hash off : Nat}
    (hbit : bitmap.testBit (hashSlice hash off) = true)
    (hchild : children[physicalIndex bitmap (hashSlice hash off)]? =
      some (.trie cb cc)) :
    findNode keq hasher (fuel + 1) key (.trie bitmap children) seed hash off =
      findNode keq hasher fuel key (.trie cb cc)
        (hashStep hasher key seed hash off).1
        (hashStep hasher key seed hash off).2.1
        (hashStep hasher key seed hash off).2.2 := by
  simp [findNode, hbit, hchild]

theorem insertEntry_emptySlot {K V : Type} {keq : K → K → Bool} {hasher : K → Nat}
    {fuel bitmap : Nat} {children : List (Node K V)} {key : K} {v : V}
    {seed hash off : Nat}
    (hbit : bitmap.testBit (hashSlice hash off) = false) :
    insertEntry keq hasher (fuel + 1) (.trie bitmap children) key v seed hash off =
      .ok (.trie (bitmap ||| (1 <<< hashSlice hash off))
        (children.insertIdx (physicalIndex bitmap (hashSlice hash off))
          (.entry key v))) := by
  simp [insertEntry, hbit]

theorem insertEntry_child_none {K V : Type} {keq : K → K → Bool} {hasher : K → Nat}
    {fuel bitmap : Nat} {children : List (Node K V)} {key : K} {v : V}
    {seed hash off : Nat}
    (hbit : bitmap.testBit (hashSlice hash off) = true)
    (hchild : children[physicalIndex bitmap (hashSlice hash off)]? = none) :
    insertEntry keq hasher (fuel + 1) (.trie bitmap children) key v seed hash off =
      .out := by
  simp [insertEntry, hbit, hchild]

theorem insertEntry_descend {K V : Type} {keq : K → K → Bool} {hasher : K → Nat}
    {fuel bitmap cb : Nat} {children cc : List (Node K V)} {key : K} {v : V}
    {seed hash off : Nat}
    (hbit : bitmap.testBit (hashSlice hash off) = true)
    (hchild : children[physicalIndex bitmap (hashSlice hash off)]? =
      some (.trie cb cc)) :
    insertEntry keq hasher (fuel + 1) (.trie bitmap children) key v seed hash off =
      match insertEntry keq hasher fuel (.trie cb cc) key v
          (hashStep hasher key seed hash off).1
          (hashStep hasher key seed hash off).2.1
          (hashStep hasher key seed hash off).2.2 with
      | .out => .out
      | .null t1 =>
        .null (.trie bitmap
          (children.set (physicalIndex bitmap (hashSlice hash off)) t1))
      | .ok t1 =>
        .ok (.trie bitmap
          (children.set (physicalIndex bitmap (hashSlice hash off)) t1)) := by
  simp [insertEntry, hbit, hchild]

theorem insertEntry_overwrite {K V : Type} {keq : K → K → Bool} {hasher : K → Nat}
    {fuel bitmap : Nat} {children : List (Node K V)} {okey : K} {oval : V}
    {key : K} {v : V} {seed hash off : Nat}
    (hbit : bitmap.testBit (hashSlice hash off) = true)
    (hchild : children[physicalIndex bitmap (hashSlice hash off)]? =
      some (.entry okey oval))
    (hk : keq okey key = true) :
    insertEntry keq hasher (fuel + 1) (.trie bitmap children) key v seed hash off =
      .ok (.trie bitmap
        (children.set (physicalIndex bitmap (hashSlice hash off))
          (.entry okey v))) := by
  simp [insertEntry, hbit, hchild, hk]

theorem insertEntry_collide {K V : Type} {keq : K → K → Bool} {hasher : K → Nat}
    {fuel bitmap : Nat} {children : List (Node K V)} {okey : K} {oval : V}
    {key : K} {v : V} {seed hash off : Nat}
    (hbit : bitmap.testBit (hashSlice hash off) = true)
    (hchild : children[physicalIndex bitmap (hashSlice hash off)]? =
      some (.entry okey oval))
    (hk : keq okey key = false)
    (hcol : 25 ≤ off ∧ (hashStep hasher key seed hash off).2.1 =
      hash32 hasher okey (hashStep hasher key seed hash off).1) :
    insertEntry keq hasher (fuel + 1) (.trie bitmap children) key v seed hash off =
      .null (.trie bitmap children) := by
  simp [insertEntry, hbit, hchild, hk, hcol]

theorem insertEntry_split {K V : Type} {keq : K → K → Bool} {hasher : K → Nat}
    {fuel bitmap : Nat} {children : List (Node K V)} {okey : K} {oval : V}
    {key : K} {v : V} {seed hash off : Nat}
    (hbit : bitmap.testBit (hashSlice hash off) = true)
    (hchild : children[physicalIndex bitmap (hashSlice hash off)]? =
      some (.entry okey oval))
    (hk : keq okey key = false)
    (hncol : ¬(25 ≤ off ∧ (hashStep hasher key seed hash off).2.1 =
      hash32 hasher okey (hashStep hasher key seed hash off).1)) :
    insertEntry keq hasher (fuel + 1) (.trie bitmap children) key v seed hash off =
      match insertEntry keq hasher fuel (.trie 0 []) okey oval
          (hashStep hasher key seed hash off).1
          (hash32 hasher okey (hashStep hasher key seed hash off).1)
          (hashStep hasher key seed hash off).2.2 with
      | .out => .out
      | .null _ => .null (.trie bitmap children)
      | .ok t1 =>
        match insertEntry keq hasher fuel t1 key v
            (hashStep hasher key seed hash off).1
            (hashStep hasher key seed hash off).2.1
            (hashStep hasher key seed hash off).2.2 with
        | .out => .out
        | .null t2 =>
          .null (.trie bitmap
            (children.set (physicalIndex bitmap (hashSlice hash off)) t2))
        | .ok t2 =>
          .ok (.trie bitmap
            (children.set (physicalIndex bitmap (hashSlice hash off)) t2)) := by
  simp [insertEntry, hbit, hchild, hk, hncol]

/-! Structural facts about `insertEntry` results. -/

theorem insertEntry_ok_trie {K V : Type} {keq : K → K → Bool} {hasher : K → Nat} :
    ∀ {fuel : Nat} {t : Node K V} {key : K} {v : V} {seed hash off : Nat}
      {t1 : Node K V},
      insertEntry keq hasher fuel t key v seed hash off = .ok t1 →
      ∃ bm ch, t1 = .trie bm ch := by
  intro fuel t key v seed hash off t1 h
  cases fuel with
  | zero => simp [insertEntry] at h
  | succ fuel =>
    cases t with
    | entry a b => simp [insertEntry] at h
    | trie bitmap children =>
      rw [insertEntry] at h
      repeat' split at h
      all_goals (cases h <;> exact ⟨_, _, rfl⟩)

theorem NodeWF_empty_trie {K V : Type} : NodeWF (.trie 0 ([] : List (Node K V))) := by
  refine NodeWF.trie 0 [] (by decide) (by simp [popcount_zero]) ?_
  intro c hc
  cases hc

theorem insertEntry_into_empty {K V : Type} {keq : K → K → Bool} {hasher : K → Nat}
    {fuel : Nat} {key : K} {v : V} {seed hash off : Nat} :
    insertEntry keq hasher (fuel + 1) (.trie 0 []) key v seed hash off =
      .ok (.trie (1 <<< hashSlice hash off) [.entry key v]) := by
  rw [insertEntry_emptySlot (by simp [Nat.zero_testBit])]
  have h1 : physicalIndex 0 (hashSlice hash off) = 0 := by
    rw [physicalIndex, Nat.zero_and]
    exact popcount_zero
  rw [h1]
  simp [List.insertIdx_zero]

theorem NodeWF_trie_inv {K V : Type} {bitmap : Nat} {children : List (Node K V)}
    (h : NodeWF (.trie bitmap children)) :
    bitmap < 2 ^ 32 ∧ children.length = popcount bitmap ∧ ∀ c ∈ children, NodeWF c := by
  cases h with
  | trie _ _ hbm hlen hch => exact ⟨hbm, hlen, hch⟩

theorem NodeWF_set {K V : Type} {bitmap : Nat} {children : List (Node K V)} {i : Nat}
    {t1 : Node K V} (hbm : bitmap < 2 ^ 32) (hlen : children.length = popcount bitmap)
    (hch : ∀ c ∈ children, NodeWF c) (ht1 : NodeWF t1) :
    NodeWF (.trie bitmap (children.set i t1)) := by
  refine NodeWF.trie _ _ hbm (by rw [List.length_set]; exact hlen) ?_
  intro c hc
  rcases List.mem_or_eq_of_mem_set hc with hmem | heq
  · exact hch c hmem
  · rw [heq]
    exact ht1

theorem NodeWF_insertIdx_entry {K V : Type} {bitmap : Nat} {children : List (Node K V)}
    {key : K} {v : V} {s : Nat} (hs : s < 32) (hbit : bitmap.testBit s = false)
    (hbm : bitmap < 2 ^ 32) (hlen : children.length = popcount bitmap)
    (hch : ∀ c ∈ children, NodeWF c) :
    NodeWF (.trie (bitmap ||| (1 <<< s))
      (children.insertIdx (physicalIndex bitmap s) (.entry key v))) := by
  have hple : physicalIndex bitmap s ≤ children.length := by
    rw [hlen]
    exact physicalIndex_le _ _
  refine NodeWF.trie _ _ ?_ ?_ ?_
  · refine Nat.or_lt_two_pow hbm ?_
    rw [Nat.one_shiftLeft]
    exact Nat.pow_lt_pow_of_lt (by omega) hs
  · rw [List.length_insertIdx _ _ hple, popcount_or_two_pow bitmap s hs hbit, hlen]
  · intro c hc
    rcases (List.mem_insertIdx hple).mp hc with heq | hmem
    · rw [heq]
      exact NodeWF.entry key v
    · exact hch c hmem

/-- Well-formedness is preserved by every successful `insertEntry`. -/
theorem insertEntry_ok_WF {K V : Type} {keq : K → K → Bool} {hasher : K → Nat} :
    ∀ (fuel : Nat) {t : Node K V} {key : K} {v : V} {seed hash off : Nat}
      {t1 : Node K V},
      insertEntry keq hasher fuel t key v seed hash off = .ok t1 →
      NodeWF t → NodeWF t1 := by
  intro fuel
  induction fuel with
  | zero =>
    intro t key v seed hash off t1 hins _
    simp [insertEntry] at hins
  | succ fuel ih =>
    intro t key v seed hash off t1 hins hwf
    cases t with
    | entry a b => simp [insertEntry] at hins
    | trie bitmap children =>
      obtain ⟨hbm, hlen, hch⟩ := NodeWF_trie_inv hwf
      by_cases hbit : bitmap.testBit (hashSlice hash off) = false
      · rw [insertEntry_emptySlot hbit] at hins
        cases hins
        exact NodeWF_insertIdx_entry (hashSlice_lt hash off) hbit hbm hlen hch
      · rw [Bool.not_eq_false] at hbit
        cases hchild : children[physicalIndex bitmap (hashSlice hash off)]? with
        | none =>
          rw [insertEntry_child_none hbit hchild] at hins
          cases hins
        | some node =>
          have hmem : node ∈ children := List.getElem?_mem hchild
          cases node with
          | trie cb cc =>
            rw [insertEntry_descend hbit hchild] at hins
            cases hrec : insertEntry keq hasher fuel (.trie cb cc) key v
                (hashStep hasher key seed hash off).1
                (hashStep hasher key seed hash off).2.1
                (hashStep hasher key seed hash off).2.2 with
            | out => rw [hrec] at hins; dsimp only [] at hins; cases hins
            | null t2 => rw [hrec] at hins; dsimp only [] at hins; cases hins
            | ok t2 =>
              rw [hrec] at hins
              dsimp only [] at hins
              cases hins
              exact NodeWF_set hbm hlen hch (ih hrec (hch _ hmem))
          | entry okey oval =>
            by_cases hk : keq okey key = true
            · rw [insertEntry_overwrite hbit hchild hk] at hins
              cases hins
              exact NodeWF_set hbm hlen hch (NodeWF.entry okey v)
            · rw [Bool.not_eq_true] at hk
              by_cases hcol : 25 ≤ off ∧ (hashStep hasher key seed hash off).2.1 =
                  hash32 hasher okey (hashStep hasher key seed hash off).1
              · rw [insertEntry_collide hbit hchild hk hcol] at hins
                cases hins
              · rw [insertEntry_split hbit hchild hk hcol] at hins
                cases h1 : insertEntry keq hasher fuel (.trie 0 []) okey oval
                    (hashStep hasher key seed hash off).1
                    (hash32 hasher okey (hashStep hasher key seed hash off).1)
                    (hashStep hasher key seed hash off).2.2 with
                | out => rw [h1] at hins; dsimp only [] at hins; cases hins
                | null t2 => rw [h1] at hins; dsimp only [] at hins; cases hins
                | ok t1a =>
                  rw [h1] at hins
                  dsimp only [] at hins
                  cases h2 : insertEntry keq hasher fuel t1a key v
                      (hashStep hasher key seed hash off).1
                      (hashStep hasher key seed hash off).2.1
                      (hashStep hasher key seed hash off).2.2 with
                  | out => rw [h2] at hins; dsimp only [] at hins; cases hins
                  | null t2 => rw [h2] at hins; dsimp only [] at hins; cases hins
                  | ok t2 =>
                    rw [h2] at hins
                    dsimp only [] at hins
                    cases hins
                    have hw1 : NodeWF t1a := ih h1 NodeWF_empty_trie
                    exact NodeWF_set hbm hlen hch (ih h2 hw1)

/-- Core of claim C2: after a successful `insertEntry` of (key, v), `findNode`
for the same key starting from the same (seed, hash, hash_offset) state reaches
a leaf whose key is `keq`-equal to the probe and whose value is `v` (on the
overwrite path the stored key of the leaf is the previously stored one). -/
theorem findNode_after_insertEntry {K V : Type} {keq : K → K → Bool} {hasher : K → Nat} :
    ∀ (fuel : Nat) {t : Node K V} {key : K} {v : V} {seed hash off : Nat}
      {t1 : Node K V},
      insertEntry keq hasher fuel t key v seed hash off = .ok t1 →
      NodeWF t → keq key key = true →
      ∃ ekey, keq ekey key = true ∧
        findNode keq hasher fuel key t1 seed hash off = some (ekey, v) := by
  intro fuel
  induction fuel with
  | zero =>
    intro t key v seed hash off t1 hins _ _
    simp [insertEntry] at hins
  | succ fuel ih =>
    intro t key v seed hash off t1 hins hwf hrefl
    cases t with
    | entry a b => simp [insertEntry] at hins
    | trie bitmap children =>
      obtain ⟨hbm, hlen, hch⟩ := NodeWF_trie_inv hwf
      by_cases hbit : bitmap.testBit (hashSlice hash off) = false
      · rw [insertEntry_emptySlot hbit] at hins
        cases hins
        refine ⟨key, hrefl, ?_⟩
        have hbit2 : (bitmap ||| (1 <<< hashSlice hash off)).testBit
            (hashSlice hash off) = true := by
          simp [Nat.testBit_or, testBit_one_shiftLeft]
        have hple : physicalIndex bitmap (hashSlice hash off) ≤ children.length := by
          rw [hlen]
          exact physicalIndex_le _ _
        have hpi : physicalIndex (bitmap ||| (1 <<< hashSlice hash off))
            (hashSlice hash off) = physicalIndex bitmap (hashSlice hash off) :=
          physicalIndex_or_two_pow bitmap (hashSlice hash off) (hashSlice hash off)
            (Nat.le_refl _)
        have hchild : (children.insertIdx (physicalIndex bitmap (hashSlice hash off))
            (Node.entry key v))[physicalIndex (bitmap ||| (1 <<< hashSlice hash off))
              (hashSlice hash off)]? = some (Node.entry key v) := by
          rw [hpi]
          exact getElem?_insertIdx_self children (Node.entry key v) _ hple
        rw [findNode_leaf hbit2 hchild, hrefl]
        simp
      · rw [Bool.not_eq_false] at hbit
        have hilt : physicalIndex bitmap (hashSlice hash off) < children.length := by
          rw [hlen]
          exact physicalIndex_lt bitmap (hashSlice hash off) (hashSlice_lt hash off) hbit
        cases hchild : children[physicalIndex bitmap (hashSlice hash off)]? with
        | none =>
          rw [insertEntry_child_none hbit hchild] at hins
          cases hins
        | some node =>
          have hmem : node ∈ children := List.getElem?_mem hchild
          cases node with
          | trie cb cc =>
            rw [insertEntry_descend hbit hchild] at hins
            cases hrec : insertEntry keq hasher fuel (.trie cb cc) key v
                (hashStep hasher key seed hash off).1
                (hashStep hasher key seed hash off).2.1
                (hashStep hasher key seed hash off).2.2 with
            | out => rw [hrec] at hins; dsimp only [] at hins; cases hins
            | null t2 => rw [hrec] at hins; dsimp only [] at hins; cases hins
            | ok t2 =>
              rw [hrec] at hins
              dsimp only [] at hins
              cases hins
              obtain ⟨ekey, hek, hfind⟩ := ih hrec (hch _ hmem) hrefl
              obtain ⟨bm2, ch2, ht2⟩ := insertEntry_ok_trie hrec
              subst ht2
              refine ⟨ekey, hek, ?_⟩
              have hchild2 : (children.set (physicalIndex bitmap (hashSlice hash off))
                  (Node.trie bm2 ch2))[physicalIndex bitmap (hashSlice hash off)]? =
                  some (Node.trie bm2 ch2) :=
                List.getElem?_set_self hilt
              rw [findNode_descend hbit hchild2]
              exact hfind
          | entry okey oval =>
            by_cases hk : keq okey key = true
            · rw [insertEntry_overwrite hbit hchild hk] at hins
              cases hins
              refine ⟨okey, hk, ?_⟩
              have hchild2 : (children.set (physicalIndex bitmap (hashSlice hash off))
                  (Node.entry okey v))[physicalIndex bitmap (hashSlice hash off)]? =
                  some (Node.entry okey v) :=
                List.getElem?_set_self hilt
              rw [findNode_leaf hbit hchild2, hk]
              simp
            · rw [Bool.not_eq_true] at hk
              by_cases hcol : 25 ≤ off ∧ (hashStep hasher key seed hash off).2.1 =
                  hash32 hasher okey (hashStep hasher key seed hash off).1
              · rw [insertEntry_collide hbit hchild hk hcol] at hins
                cases hins
              · rw [insertEntry_split hbit hchild hk hcol] at hins
                cases h1 : insertEntry keq hasher fuel (.trie 0 []) okey oval
                    (hashStep hasher key seed hash off).1
                    (hash32 hasher okey (hashStep hasher key seed hash off).1)
                    (hashStep hasher key seed hash off).2.2 with
                | out => rw [h1] at hins; dsimp only [] at hins; cases hins
                | null t2 => rw [h1] at hins; dsimp only [] at hins; cases hins
                | ok t1a =>
                  rw [h1] at hins
                  dsimp only [] at hins
                  cases h2 : insertEntry keq hasher fuel t1a key v
                      (hashStep hasher key seed hash off).1
                      (hashStep hasher key seed hash off).2.1
                      (hashStep hasher key seed hash off).2.2 with
                  | out => rw [h2] at hins; dsimp only [] at hins; cases hins
                  | null t2 => rw [h2] at hins; dsimp only [] at hins; cases hins
                  | ok t2 =>
                    rw [h2] at hins
                    dsimp only [] at hins
                    cases hins
                    have hw1 : NodeWF t1a := insertEntry_ok_WF fuel h1 NodeWF_empty_trie
                    obtain ⟨ekey, hek, hfind⟩ := ih h2 hw1 hrefl
                    obtain ⟨bm2, ch2, ht2⟩ := insertEntry_ok_trie h2
                    subst ht2
                    refine ⟨ekey, hek, ?_⟩
                    have hchild2 : (children.set (physicalIndex bitmap
                        (hashSlice hash off)) (Node.trie bm2 ch2))[physicalIndex bitmap
                          (hashSlice hash off)]? = some (Node.trie bm2 ch2) :=
                      List.getElem?_set_self hilt
                    rw [findNode_descend hbit hchild2]
                    exact hfind

theorem insertEntry_null_trie {K V : Type} {keq : K → K → Bool} {hasher : K → Nat} :
    ∀ {fuel : Nat} {t : Node K V} {key : K} {v : V} {seed hash off : Nat}
      {t1 : Node K V},
      insertEntry keq hasher fuel t key v seed hash off = .null t1 →
      ∃ bm ch, t1 = .trie bm ch := by
  intro fuel t key v seed hash off t1 h
  cases fuel with
  | zero => simp [insertEntry] at h
  | succ fuel =>
    cases t with
    | entry a b => simp [insertEntry] at h
    | trie bitmap children =>
      rw [insertEntry] at h
      repeat' split at h
      all_goals (cases h <;> exact ⟨_, _, rfl⟩)

theorem hashStep_consistent {K : Type} (hasher : K → Nat) (key : K) (seed off : Nat) :
    (hashStep hasher key seed (hash32 hasher key seed) off).2.1 =
      hash32 hasher key (hashStep hasher key seed (hash32 hasher key seed) off).1 := by
  rw [hashStep]
  split <;> simp

theorem hashStep_seed_eq {K : Type} (hasher : K → Nat) (k1 k2 : K) (s h1 h2 o : Nat) :
    (hashStep hasher k1 s h1 o).1 = (hashStep hasher k2 s h2 o).1 := by
  rw [hashStep, hashStep]
  by_cases h : o < 25 <;> simp [h]

theorem hashStep_off_eq {K : Type} (hasher : K → Nat) (k1 k2 : K) (s h1 h2 o : Nat) :
    (hashStep hasher k1 s h1 o).2.2 = (hashStep hasher k2 s h2 o).2.2 := by
  rw [hashStep, hashStep]
  by_cases h : o < 25 <;> simp [h]

theorem lt_length_of_getElem?_eq_some {α : Type} {l : List α} {i : Nat} {a : α}
    (h : l[i]? = some a) : i < l.length := by
  by_contra hc
  rw [List.getElem?_eq_none (by omega)] at h
  cases h

/-- Core of (amended) claim C5: a `nullptr` return from `insertEntry` does not
change the result of any lookup (the container is observationally unchanged,
though the pre-existing entry may have been pushed into deeper interior nodes),
and such a return only happens because of a reseed collision: some key that is
not `keq`-equal to the inserted key has the same 32-bit hash under a derived
seed.  Requires the hasher to respect key equality. -/
theorem insertEntry_null_preserves {K V : Type} {keq : K → K → Bool} {hasher : K → Nat}
    (hcomp : ∀ a b : K, keq a b = true → hasher a = hasher b) :
    ∀ (fuel : Nat) {t : Node K V} {key : K} {v : V} {seed off : Nat} {t1 : Node K V},
      insertEntry keq hasher fuel t key v seed (hash32 hasher key seed) off = .null t1 →
      (∀ (probe : K) (ff : Nat), fuel ≤ ff →
          findNode keq hasher ff probe t1 seed (hash32 hasher probe seed) off =
            findNode keq hasher ff probe t seed (hash32 hasher probe seed) off) ∧
        ∃ (k0 : K) (s0 : Nat), keq k0 key = false ∧
          hash32 hasher key (next_seed s0) = hash32 hasher k0 (next_seed s0) := by
  intro fuel
  induction fuel with
  | zero =>
    intro t key v seed off t1 hins
    simp [insertEntry] at hins
  | succ fuel ih =>
    intro t key v seed off t1 hins
    cases t with
    | entry a b => simp [insertEntry] at hins
    | trie bitmap children =>
      by_cases hbit : bitmap.testBit (hashSlice (hash32 hasher key seed) off) = false
      · rw [insertEntry_emptySlot hbit] at hins
        cases hins
      · rw [Bool.not_eq_false] at hbit
        cases hchild : children[physicalIndex bitmap
            (hashSlice (hash32 hasher key seed) off)]? with
        | none =>
          rw [insertEntry_child_none hbit hchild] at hins
          cases hins
        | some node =>
          have hilt : physicalIndex bitmap (hashSlice (hash32 hasher key seed) off) <
              children.length := lt_length_of_getElem?_eq_some hchild
          cases node with
          | trie cb cc =>
            rw [insertEntry_descend hbit hchild] at hins
            cases hrec : insertEntry keq hasher fuel (.trie cb cc) key v
                (hashStep hasher key seed (hash32 hasher key seed) off).1
                (hashStep hasher key seed (hash32 hasher key seed) off).2.1
                (hashStep hasher key seed (hash32 hasher key seed) off).2.2 with
            | out => rw [hrec] at hins; dsimp only [] at hins; cases hins
            | ok t2 => rw [hrec] at hins; dsimp only [] at hins; cases hins
            | null t2 =>
              rw [hrec] at hins
              dsimp only [] at hins
              cases hins
              rw [hashStep_consistent hasher key seed off] at hrec
              obtain ⟨hpres, hex⟩ := ih hrec
              refine ⟨?_, hex⟩
              intro probe ff hff
              obtain ⟨ff0, rfl⟩ : ∃ ff0, ff = ff0 + 1 := ⟨ff - 1, by omega⟩
              obtain ⟨bm2, ch2, ht2⟩ := insertEntry_null_trie hrec
              subst ht2
              by_cases hbitp : bitmap.testBit
                  (hashSlice (hash32 hasher probe seed) off) = false
              · rw [findNode_miss hbitp, findNode_miss hbitp]
              · rw [Bool.not_eq_false] at hbitp
                by_cases hsl : hashSlice (hash32 hasher probe seed) off =
                    hashSlice (hash32 hasher key seed) off
                · have hchild2 : (children.set (physicalIndex bitmap
                      (hashSlice (hash32 hasher key seed) off))
                      (Node.trie bm2 ch2))[physicalIndex bitmap
                        (hashSlice (hash32 hasher probe seed) off)]? =
                      some (Node.trie bm2 ch2) := by
                    rw [hsl]
                    exact List.getElem?_set_self hilt
                  have hchild3 : children[physicalIndex bitmap
                      (hashSlice (hash32 hasher probe seed) off)]? =
                      some (Node.trie cb cc) := by
                    rw [hsl]
                    exact hchild
                  rw [findNode_descend hbitp hchild2, findNode_descend hbitp hchild3]
                  rw [hashStep_consistent hasher probe seed off,
                    hashStep_seed_eq hasher probe key seed (hash32 hasher probe seed)
                      (hash32 hasher key seed) off,
                    hashStep_off_eq hasher probe key seed (hash32 hasher probe seed)
                      (hash32 hasher key seed) off]
                  exact hpres probe ff0 (by omega)
                · have hne : physicalIndex bitmap
                      (hashSlice (hash32 hasher probe seed) off) ≠
                      physicalIndex bitmap (hashSlice (hash32 hasher key seed) off) :=
                    physicalIndex_ne bitmap _ _ hsl
                      (hashSlice_lt _ _) (hashSlice_lt _ _) hbitp hbit
                  have hlook : (children.set (physicalIndex bitmap
                      (hashSlice (hash32 hasher key seed) off))
                      (Node.trie bm2 ch2))[physicalIndex bitmap
                        (hashSlice (hash32 hasher probe seed) off)]? =
                      children[physicalIndex bitmap
                        (hashSlice (hash32 hasher probe seed) off)]? :=
                    List.getElem?_set_ne (fun h => hne h.symm)
                  rw [findNode, findNode]
                  simp only [hlook]
          | entry okey oval =>
            by_cases hk : keq okey key = true
            · rw [insertEntry_overwrite hbit hchild hk] at hins
              cases hins
            · rw [Bool.not_eq_true] at hk
              by_cases hcol : 25 ≤ off ∧
                  (hashStep hasher key seed (hash32 hasher key seed) off).2.1 =
                    hash32 hasher okey
                      (hashStep hasher key seed (hash32 hasher key seed) off).1
              · rw [insertEntry_collide hbit hchild hk hcol] at hins
                cases hins
                refine ⟨fun probe ff hff => rfl, okey, seed, hk, ?_⟩
                obtain ⟨hoff, hcol2⟩ := hcol
                rw [hashStep, if_neg (by omega)] at hcol2
                exact hcol2
              · rw [insertEntry_split hbit hchild hk hcol] at hins
                cases h1 : insertEntry keq hasher fuel (.trie 0 []) okey oval
                    (hashStep hasher key seed (hash32 hasher key seed) off).1
                    (hash32 hasher okey
                      (hashStep hasher key seed (hash32 hasher key seed) off).1)
                    (hashStep hasher key seed (hash32 hasher key seed) off).2.2 with
                | out => rw [h1] at hins; dsimp only [] at hins; cases hins
                | null t2 =>
                  exfalso
                  cases fuel with
                  | zero => simp [insertEntry] at h1
                  | succ f0 => rw [insertEntry_into_empty] at h1; cases h1
                | ok t1a =>
                  rw [h1] at hins
                  dsimp only [] at hins
                  cases h2 : insertEntry keq hasher fuel t1a key v
                      (hashStep hasher key seed (hash32 hasher key seed) off).1
                      (hashStep hasher key seed (hash32 hasher key seed) off).2.1
                      (hashStep hasher key seed (hash32 hasher key seed) off).2.2 with
                  | out => rw [h2] at hins; dsimp only [] at hins; cases hins
                  | ok t2 => rw [h2] at hins; dsimp only [] at hins; cases hins
                  | null t2 =>
                    rw [h2] at hins
                    dsimp only [] at hins
                    cases hins
                    rw [hashStep_consistent hasher key seed off] at h2
                    obtain ⟨hpres, hex⟩ := ih h2
                    refine ⟨?_, hex⟩
                    intro probe ff hff
                    obtain ⟨ff0, rfl⟩ : ∃ ff0, ff = ff0 + 1 := ⟨ff - 1, by omega⟩
                    obtain ⟨f0, rfl⟩ : ∃ f0, fuel = f0 + 1 := by
                      cases fuel with
                      | zero => simp [insertEntry] at h1
                      | succ f0 => exact ⟨f0, rfl⟩
                    rw [insertEntry_into_empty] at h1
                    cases h1
                    obtain ⟨bm2, ch2, ht2⟩ := insertEntry_null_trie h2
                    subst ht2
                    by_cases hbitp : bitmap.testBit
                        (hashSlice (hash32 hasher probe seed) off) = false
                    · rw [findNode_miss hbitp, findNode_miss hbitp]
                    · rw [Bool.not_eq_false] at hbitp
                      by_cases hsl : hashSlice (hash32 hasher probe seed) off =
                          hashSlice (hash32 hasher key seed) off
                      · have hchild2 : (children.set (physicalIndex bitmap
                            (hashSlice (hash32 hasher key seed) off))
                            (Node.trie bm2 ch2))[physicalIndex bitmap
                              (hashSlice (hash32 hasher probe seed) off)]? =
                            some (Node.trie bm2 ch2) := by
                          rw [hsl]
                          exact List.getElem?_set_self hilt
                        have hchild3 : children[physicalIndex bitmap
                            (hashSlice (hash32 hasher probe seed) off)]? =
                            some (Node.entry okey oval) := by
                          rw [hsl]
                          exact hchild
                        rw [findNode_descend hbitp hchild2, findNode_leaf hbitp hchild3]
                        rw [hashStep_consistent hasher probe seed off,
                          hashStep_seed_eq hasher probe key seed
                            (hash32 hasher probe seed) (hash32 hasher key seed) off,
                          hashStep_off_eq hasher probe key seed
                            (hash32 hasher probe seed) (hash32 hasher key seed) off]
                        rw [hpres probe ff0 (by omega)]
                        obtain ⟨g0, rfl⟩ : ∃ g0, ff0 = g0 + 1 := ⟨ff0 - 1, by omega⟩
                        by_cases hkp : keq okey probe = true
                        · have hhp : hasher okey = hasher probe := hcomp okey probe hkp
                          have hhpe : hash32 hasher probe
                              (hashStep hasher key seed (hash32 hasher key seed) off).1 =
                              hash32 hasher okey
                                (hashStep hasher key seed
                                  (hash32 hasher key seed) off).1 := by
                            simp only [hash32]
                            rw [hhp]
                          rw [hhpe]
                          have hbitq : (1 <<< hashSlice (hash32 hasher okey
                              (hashStep hasher key seed (hash32 hasher key seed) off).1)
                              (hashStep hasher key seed
                                (hash32 hasher key seed) off).2.2).testBit
                              (hashSlice (hash32 hasher okey
                                (hashStep hasher key seed
                                  (hash32 hasher key seed) off).1)
                                (hashStep hasher key seed
                                  (hash32 hasher key seed) off).2.2) = true := by
                            rw [testBit_one_shiftLeft]
                            simp
                          have hchild4 : ([Node.entry okey oval] :
                              List (Node K V))[physicalIndex
                                (1 <<< hashSlice (hash32 hasher okey
                                  (hashStep hasher key seed
                                    (hash32 hasher key seed) off).1)
                                  (hashStep hasher key seed
                                    (hash32 hasher key seed) off).2.2)
                                (hashSlice (hash32 hasher okey
                                  (hashStep hasher key seed
                                    (hash32 hasher key seed) off).1)
                                  (hashStep hasher key seed
                                    (hash32 hasher key seed) off).2.2)]? =
                              some (Node.entry okey oval) := by
                            rw [physicalIndex_two_pow_self]
                            rfl
                          rw [findNode_leaf hbitq hchild4, hkp]
                        · rw [Bool.not_eq_true] at hkp
                          rw [hkp]
                          by_cases hsl2 : hashSlice (hash32 hasher probe
                              (hashStep hasher key seed
                                (hash32 hasher key seed) off).1)
                              (hashStep hasher key seed
                                (hash32 hasher key seed) off).2.2 =
                              hashSlice (hash32 hasher okey
                                (hashStep hasher key seed
                                  (hash32 hasher key seed) off).1)
                                (hashStep hasher key seed
                                  (hash32 hasher key seed) off).2.2
                          · have hbitq : (1 <<< hashSlice (hash32 hasher okey
                                (hashStep hasher key seed
                                  (hash32 hasher key seed) off).1)
                                (hashStep hasher key seed
                                  (hash32 hasher key seed) off).2.2).testBit
                                (hashSlice (hash32 hasher probe
                                  (hashStep hasher key seed
                                    (hash32 hasher key seed) off).1)
                                  (hashStep hasher key seed
                                    (hash32 hasher key seed) off).2.2) = true := by
                              rw [hsl2, testBit_one_shiftLeft]
                              simp
                            have hchild4 : ([Node.entry okey oval] :
                                List (Node K V))[physicalIndex
                                  (1 <<< hashSlice (hash32 hasher okey
                                    (hashStep hasher key seed
                                      (hash32 hasher key seed) off).1)
                                    (hashStep hasher key seed
                                      (hash32 hasher key seed) off).2.2)
                                  (hashSlice (hash32 hasher probe
                                    (hashStep hasher key seed
                                      (hash32 hasher key seed) off).1)
                                    (hashStep hasher key seed
                                      (hash32 hasher key seed) off).2.2)]? =
                                some (Node.entry okey oval) := by
                              rw [hsl2, physicalIndex_two_pow_self]
                              rfl
                            rw [findNode_leaf hbitq hchild4, hkp]
                          · have hbitq : (1 <<< hashSlice (hash32 hasher okey
                                (hashStep hasher key seed
                                  (hash32 hasher key seed) off).1)
                                (hashStep hasher key seed
                                  (hash32 hasher key seed) off).2.2).testBit
                                (hashSlice (hash32 hasher probe
                                  (hashStep hasher key seed
                                    (hash32 hasher key seed) off).1)
                                  (hashStep hasher key seed
                                    (hash32 hasher key seed) off).2.2) = false := by
                              rw [testBit_one_shiftLeft]
                              simp
                              omega
                            rw [findNode_miss hbitq]
                            simp
                      · have hne : physicalIndex bitmap
                            (hashSlice (hash32 hasher probe seed) off) ≠
                            physicalIndex bitmap
                              (hashSlice (hash32 hasher key seed) off) :=
                          physicalIndex_ne bitmap _ _ hsl
                            (hashSlice_lt _ _) (hashSlice_lt _ _) hbitp hbit
                        have hlook : (children.set (physicalIndex bitmap
                            (hashSlice (hash32 hasher key seed) off))
                            (Node.trie bm2 ch2))[physicalIndex bitmap
                              (hashSlice (hash32 hasher probe seed) off)]? =
                            children[physicalIndex bitmap
                              (hashSlice (hash32 hasher probe seed) off)]? :=
                          List.getElem?_set_ne (fun h => hne h.symm)
                        rw [findNode, findNode]
                        simp only [hlook]

/-! The sizing oracle (claim C8). -/

theorem log2_succ_eq_clog (e : Nat) (he : 2 ≤ e) :
    Nat.log2 (e - 1) + 1 = Nat.clog 2 e := by
  rw [Nat.log2_eq_log_two]
  have he1 : e - 1 ≠ 0 := by omega
  apply Nat.le_antisymm
  · have h1 : 2 ^ Nat.log 2 (e - 1) ≤ e - 1 := Nat.pow_log_le_self 2 he1
    have h2 : e ≤ 2 ^ Nat.clog 2 e := Nat.le_pow_clog (by omega) e
    have h3 : 2 ^ Nat.log 2 (e - 1) < 2 ^ Nat.clog 2 e := by omega
    have h4 := (Nat.pow_lt_pow_iff_right (by omega : 1 < 2)).mp h3
    omega
  · rw [← Nat.le_pow_iff_clog_le (by omega : 1 < 2)]
    have h4 : e - 1 < 2 ^ (Nat.log 2 (e - 1) + 1) := by
      have h5 := Nat.lt_pow_succ_log_self (by omega : 1 < 2) (e - 1)
      simpa using h5
    omega

theorem hamt_alloc_eq_core (r e l : Nat) :
    hamt_trie_allocation_size r e l =
      (if (alloc_sizes_by_level.getD (min l 4) []).getD
          (if 4 < l then 0 else min 22 (Nat.clog 2 e)) 0 < r
       then alloc_sizes.getD r 0
       else (alloc_sizes_by_level.getD (min l 4) []).getD
          (if 4 < l then 0 else min 22 (Nat.clog 2 e)) 0) := by
  simp only [hamt_trie_allocation_size]
  by_cases hl : 4 < l
  · simp only [if_pos hl]
    have hmin : min l 4 = 4 := by omega
    rw [hmin]
  · simp only [if_neg hl]
    have hmin : min l 4 = l := by omega
    rw [hmin]
    by_cases he1 : e - 1 = 0
    · rw [if_pos he1]
      have he : e = 1 ∨ e = 0 := by omega
      rcases he with he | he <;> subst he <;>
        norm_num [Nat.clog_one_right, Nat.clog_zero_right]
    · have h2e : 2 ≤ e := by omega
      rw [if_neg he1, ← log2_succ_eq_clog e h2e, Nat.min_comm]

theorem tableValues : ∀ l, l < 5 → ∀ g, g < 23 →
    (alloc_sizes_by_level.getD l []).getD g 0 ∈ [1, 2, 3, 5, 8, 13, 21, 29, 32] := by
  decide

theorem allocCore : ∀ r0, r0 < 32 → ∀ g ∈ [1, 2, 3, 5, 8, 13, 21, 29, 32],
    ((if g < r0 + 1 then alloc_sizes.getD (r0 + 1) 0 else g) =
        max (alloc_sizes.getD (r0 + 1) 0) g ∧
      r0 + 1 ≤ (if g < r0 + 1 then alloc_sizes.getD (r0 + 1) 0 else g) ∧
      (if g < r0 + 1 then alloc_sizes.getD (r0 + 1) 0 else g) ≤ 32) := by
  decide

theorem row4_const : ∀ g, g < 23 → (alloc_sizes_by_level.getD 4 []).getD g 0 = 1 := by
  decide

theorem insertIdx_eq_take_drop {α : Type} (x : α) :
    ∀ (i : Nat) (l : List α), i ≤ l.length →
      l.insertIdx i x = l.take i ++ x :: l.drop i := by
  intro i
  induction i with
  | zero =>
    intro l _
    simp [List.insertIdx_zero]
  | succ i ih =>
    intro l hl
    cases l with
    | nil => simp at hl
    | cons a as =>
      rw [List.insertIdx_succ_cons, List.take_succ_cons, List.drop_succ_cons,
        ih as (by simpa using hl)]
      rfl

/-! The claim theorems. -/

/-- C8: for `required` in 1..32, `expected_size >= 1` and any `level`, the
sizing oracle returns
`max(by_required[required], per_level[min(level,4)][generation])` with
`generation = min(22, ceil(log2 expected_size))` (for levels deeper than 4 the
code forces generation 0, which agrees because row 4 is all ones), and the
returned capacity always lies in `[required, 32]`. -/
theorem c8_sizing_oracle (required expected level : Nat)
    (h1 : 1 ≤ required) (h2 : required ≤ 32) (h3 : 1 ≤ expected) :
    hamt_trie_allocation_size required expected level =
      allocSizeSpec required expected level ∧
    required ≤ hamt_trie_allocation_size required expected level ∧
    hamt_trie_allocation_size required expected level ≤ 32 := by
  have hguess : (alloc_sizes_by_level.getD (min level 4) []).getD
      (if 4 < level then 0 else min 22 (Nat.clog 2 expected)) 0 =
      (alloc_sizes_by_level.getD (min level 4) []).getD
        (min 22 (Nat.clog 2 expected)) 0 := by
    by_cases h : 4 < level
    · rw [if_pos h]
      have hm4 : min level 4 = 4 := by omega
      rw [hm4, row4_const 0 (by omega), row4_const (min 22 (Nat.clog 2 expected))
        (by omega)]
    · rw [if_neg h]
  rw [hamt_alloc_eq_core, allocSizeSpec, hguess]
  have hl5 : min level 4 < 5 := by omega
  have hg23 : min 22 (Nat.clog 2 expected) < 23 := by omega
  have hmem := tableValues (min level 4) hl5 _ hg23
  obtain ⟨r0, rfl⟩ : ∃ r0, required = r0 + 1 := ⟨required - 1, by omega⟩
  exact allocCore r0 (by omega) _ hmem

/-- Witness for C8 at `required = 5`, `expected_size = 10`, `level = 2`. -/
theorem c8_sizing_oracle_witness :
    hamt_trie_allocation_size 5 10 2 = allocSizeSpec 5 10 2 ∧
      5 ≤ hamt_trie_allocation_size 5 10 2 ∧
      hamt_trie_allocation_size 5 10 2 ≤ 32 :=
  c8_sizing_oracle 5 10 2 (by decide) (by decide) (by decide)

section
seal popcountAux

/-- C7: on a trie whose bitmap bit at `logical_index` is clear (and whose live
prefix matches its popcount), `BitmapTrie.insertEntry` either places the new
leaf at physical index `popcount (bitmap & ((1 << logical_index) - 1))` with
the bitmap bit set and all previously live nodes preserved in order, or -- when
growth is needed and the allocator returns null -- returns null before any
store, leaving the trie unchanged. -/
theorem c7_bitmapTrie_insertEntry {α : Type} (t : BitmapTrie α) (logical_index : Nat)
    (x : α) (allocOk : Bool) (es lv : Nat)
    (hlt : logical_index < 32)
    (hbit : t.bitmap.testBit logical_index = false)
    (hlen : t.base.length = popcount t.bitmap) :
    (t.capacity < popcount t.bitmap + 1 → allocOk = false →
      BitmapTrie.insertEntry allocOk t logical_index x es lv = none) ∧
    ((popcount t.bitmap + 1 ≤ t.capacity ∨ allocOk = true) →
      ∃ t2, BitmapTrie.insertEntry allocOk t logical_index x es lv = some t2 ∧
        t2.bitmap = t.bitmap ||| (1 <<< logical_index) ∧
        t2.base = t.base.take (physicalIndex t.bitmap logical_index) ++
          x :: t.base.drop (physicalIndex t.bitmap logical_index) ∧
        t2.base[physicalIndex t.bitmap logical_index]? = some x ∧
        t2.base.length = popcount t2.bitmap) := by
  have hple : physicalIndex t.bitmap logical_index ≤ t.base.length := by
    rw [hlen]
    exact physicalIndex_le _ _
  have htake := insertIdx_eq_take_drop x (physicalIndex t.bitmap logical_index)
    t.base hple
  have hget := getElem?_insertIdx_self t.base x
    (physicalIndex t.bitmap logical_index) hple
  have hlen2 : (t.base.insertIdx (physicalIndex t.bitmap logical_index) x).length =
      popcount (t.bitmap ||| (1 <<< logical_index)) := by
    rw [List.length_insertIdx _ _ hple, hlen,
      popcount_or_two_pow t.bitmap logical_index hlt hbit]
  constructor
  · intro hcap hao
    simp only [BitmapTrie.insertEntry]
    rw [if_pos hcap, if_pos hao]
  · intro hor
    by_cases hcap : t.capacity < popcount t.bitmap + 1
    · have hao : allocOk = true := by
        rcases hor with hle | htrue
        · omega
        · exact htrue
      refine ⟨⟨t.bitmap ||| (1 <<< logical_index),
        hamt_trie_allocation_size (popcount t.bitmap + 1) es lv,
        t.base.insertIdx (physicalIndex t.bitmap logical_index) x⟩, ?_, rfl,
        htake, hget, hlen2⟩
      simp only [BitmapTrie.insertEntry]
      rw [if_pos hcap, hao]
      simp
    · refine ⟨⟨t.bitmap ||| (1 <<< logical_index), t.capacity,
        t.base.insertIdx (physicalIndex t.bitmap logical_index) x⟩, ?_, rfl,
        htake, hget, hlen2⟩
      simp only [BitmapTrie.insertEntry]
      rw [if_neg hcap]

end

/-- Witness for C7 on the trie with bitmap 5 (slots 0 and 2 live), capacity 2,
inserting at logical slot 1: with a failing allocator the call returns null;
with a working allocator the leaf lands between the two live nodes. -/
theorem c7_bitmapTrie_insertEntry_witness :
    BitmapTrie.insertEntry false (⟨5, 2, [10, 20]⟩ : BitmapTrie Nat) 1 99 3 0 =
      none ∧
    ∃ t2, BitmapTrie.insertEntry true (⟨5, 2, [10, 20]⟩ : BitmapTrie Nat) 1 99 3 0 =
        some t2 ∧
      t2.bitmap = 5 ||| (1 <<< 1) ∧
      t2.base = [10, 20].take (physicalIndex 5 1) ++
        99 :: [10, 20].drop (physicalIndex 5 1) ∧
      t2.base[physicalIndex 5 1]? = some 99 ∧
      t2.base.length = popcount t2.bitmap := by
  constructor
  · exact (c7_bitmapTrie_insertEntry ⟨5, 2, [10, 20]⟩ 1 99 false 3 0 (by decide)
      (by decide) (by decide)).1 (by decide) rfl
  · exact (c7_bitmapTrie_insertEntry ⟨5, 2, [10, 20]⟩ 1 99 true 3 0 (by decide)
      (by decide) (by decide)).2 (Or.inr rfl)

/-- C2: whenever `insert` returns a non-null iterator, an immediate `find` of
the same key returns a pointer to the just-written value.  Stated for a
well-formed container and a key equality that is reflexive at the inserted
key. -/
theorem c2_find_after_insert {K V : Type} (keq : K → K → Bool) (hasher : K → Nat)
    (fuel : Nat) (h h2 : HashArrayMappedTrie K V) (key : K) (v : V)
    (hwf : NodeWF h.root) (hrefl : keq key key = true)
    (hins : HashArrayMappedTrie.insert keq hasher fuel h key v = .ok h2) :
    HashArrayMappedTrie.find keq hasher fuel h2 key = some v := by
  simp only [HashArrayMappedTrie.insert] at hins
  cases hrec : insertEntry keq hasher fuel h.root key v h.seed
      (hash32 hasher key h.seed) 0 with
  | out => rw [hrec] at hins; cases hins
  | null t => rw [hrec] at hins; dsimp only [] at hins; cases hins
  | ok t =>
    rw [hrec] at hins
    dsimp only [] at hins
    cases hins
    obtain ⟨ekey, hek, hfind⟩ := findNode_after_insertEntry fuel hrec hwf hrefl
    simp only [HashArrayMappedTrie.find]
    rw [hfind]
    rfl

/-- Witness for C2: inserting (7, 1) into the empty container (identity hasher,
default seed) and finding it again. -/
theorem c2_find_after_insert_witness :
    HashArrayMappedTrie.find (fun a b : Nat => a == b) (fun x : Nat => x) 8
      ⟨1, .trie 1024 [.entry 7 1], 3981806797⟩ 7 = some 1 :=
  c2_find_after_insert (fun a b : Nat => a == b) (fun x : Nat => x) 8
    (HashArrayMappedTrie.empty Nat Nat) ⟨1, .trie 1024 [.entry 7 1], 3981806797⟩ 7 1
    NodeWF_empty_trie rfl rfl

/-- C1 (code bug): inserting (7, 2) after (7, 1) does overwrite the value in
place (one leaf remains and `find` yields 2) and returns a non-null iterator,
but `insert` (378-386) increments `_count` on every non-null return, the
overwrite path included, so `size()` becomes 2 instead of staying 1. -/
theorem c1_overwrite_increments_count :
    (HashArrayMappedTrie.afterInsert natKeyEq natIdHasher 8
        (HashArrayMappedTrie.empty Nat Nat) 7 1).count = 1 ∧
    (HashArrayMappedTrie.insert natKeyEq natIdHasher 8
        (HashArrayMappedTrie.afterInsert natKeyEq natIdHasher 8
          (HashArrayMappedTrie.empty Nat Nat) 7 1) 7 2).isOk = true ∧
    (HashArrayMappedTrie.afterInsert natKeyEq natIdHasher 8
        (HashArrayMappedTrie.afterInsert natKeyEq natIdHasher 8
          (HashArrayMappedTrie.empty Nat Nat) 7 1) 7 2).count = 2 ∧
    HashArrayMappedTrie.find natKeyEq natIdHasher 8
        (HashArrayMappedTrie.afterInsert natKeyEq natIdHasher 8
          (HashArrayMappedTrie.afterInsert natKeyEq natIdHasher 8
            (HashArrayMappedTrie.empty Nat Nat) 7 1) 7 2) 7 = some 2 ∧
    leafCount 8 (HashArrayMappedTrie.afterInsert natKeyEq natIdHasher 8
        (HashArrayMappedTrie.afterInsert natKeyEq natIdHasher 8
          (HashArrayMappedTrie.empty Nat Nat) 7 1) 7 2).root = 1 := by
  decide

/-- C6 (code bug): after the overwrite insert of claim C1 the container reports
`size() = 2` while only one Leaf is reachable from the root, so `size()` does
not equal the reachable leaf count; `clear` does restore the equality (0 = 0). -/
theorem c6_count_exceeds_leaf_count :
    (HashArrayMappedTrie.afterInsert natKeyEq natIdHasher 8
        (HashArrayMappedTrie.afterInsert natKeyEq natIdHasher 8
          (HashArrayMappedTrie.empty Nat Nat) 7 1) 7 2).count = 2 ∧
    leafCount 8 (HashArrayMappedTrie.afterInsert natKeyEq natIdHasher 8
        (HashArrayMappedTrie.afterInsert natKeyEq natIdHasher 8
          (HashArrayMappedTrie.empty Nat Nat) 7 1) 7 2).root = 1 ∧
    (HashArrayMappedTrie.clear (HashArrayMappedTrie.afterInsert natKeyEq natIdHasher 8
        (HashArrayMappedTrie.afterInsert natKeyEq natIdHasher 8
          (HashArrayMappedTrie.empty Nat Nat) 7 1) 7 2)).count = 0 ∧
    leafCount 8 (HashArrayMappedTrie.clear (HashArrayMappedTrie.afterInsert natKeyEq
        natIdHasher 8 (HashArrayMappedTrie.afterInsert natKeyEq natIdHasher 8
          (HashArrayMappedTrie.empty Nat Nat) 7 1) 7 2)).root = 0 := by
  decide

/-- C4 (code bug): copy construction never produces a clone -- the delegated-to
constructor is an `assert(false)` stub that initializes nothing. -/
theorem c4_copy_construct_aborts :
    HashArrayMappedTrie.copyConstruct (HashArrayMappedTrie.afterInsert natKeyEq
      natIdHasher 8 (HashArrayMappedTrie.empty Nat Nat) 7 1) = none := rfl

/-- C3 counterexample: with `hash_offset = 25` and a further descent required,
the code reseeds (offset back to 0, xorshifted seed, recomputed hash) instead
of advancing to offset 30 with seed and hash unchanged as the claim states;
accordingly offset 30 is never part of the schedule (after six descents the
offset is 0 again, not 30). -/
theorem c3_counterexample :
    hashStep (fun x : Nat => x) 0 1 0 25 ≠ (1, 0, 30) ∧
      (descendState (fun x : Nat => x) 0 1 6).2.2 ≠ 30 := by
  decide

/-- C3 (amended): each descent past an Interior advances `hash_offset` by 5,
and the schedule reseeds exactly when `hash_offset` has reached 25: slices are
consumed at offsets 0, 5, 10, 15, 20, 25 under each seed (offset `5 * (n % 6)`
after `n` descents), the seed after `n` descents is the `n / 6`-th xorshift32
iterate of the initial seed, and the hash is always `seed XOR hasher(key)`
truncated to 32 bits for the seed in effect. -/
theorem c3_hash_schedule {K : Type} (hasher : K → Nat) (key : K) (s0 n : Nat) :
    descendState hasher key s0 n =
      (next_seed^[n / 6] s0, hash32 hasher key (next_seed^[n / 6] s0),
        5 * (n % 6)) := by
  induction n with
  | zero => simp [descendState]
  | succ n ih =>
    simp only [descendState]
    rw [ih]
    simp only [hashStep]
    by_cases h : n % 6 < 5
    · rw [if_pos (by omega : 5 * (n % 6) < 25)]
      have h1 : (n + 1) / 6 = n / 6 := by omega
      have h2 : (n + 1) % 6 = n % 6 + 1 := by omega
      have h3 : 5 * (n % 6) + 5 = 5 * (n % 6 + 1) := by ring
      rw [h1, h2, h3]
    · have h5 : n % 6 = 5 := by omega
      rw [if_neg (by omega : ¬5 * (n % 6) < 25)]
      have h1 : (n + 1) / 6 = n / 6 + 1 := by omega
      have h2 : (n + 1) % 6 = 0 := by omega
      rw [h1, h2, Function.iterate_succ_apply']

/-- C5 counterexample: insert key 0, then key `2^32` (identity hasher, so both
keys have the same 32-bit hash under every seed).  The second insert fails with
a null iterator through the reseed-collision path, but the pre-existing entry
is not restored to its slot: logical slot 13 of the root held a Leaf before the
failed insert and holds an Interior trie afterwards. -/
theorem c5_counterexample :
    ((HashArrayMappedTrie.afterInsert natKeyEq natIdHasher 32
        (HashArrayMappedTrie.empty Nat Nat) 0 0).root.childAt 13).map
      Node.isEntryB = some true ∧
    (HashArrayMappedTrie.insert natKeyEq natIdHasher 32
        (HashArrayMappedTrie.afterInsert natKeyEq natIdHasher 32
          (HashArrayMappedTrie.empty Nat Nat) 0 0) (2 ^ 32) 1).isFailed = true ∧
    ((HashArrayMappedTrie.afterInsert natKeyEq natIdHasher 32
        (HashArrayMappedTrie.afterInsert natKeyEq natIdHasher 32
          (HashArrayMappedTrie.empty Nat Nat) 0 0) (2 ^ 32) 1).root.childAt 13).map
      Node.isEntryB = some false := by
  decide

/-- C5 (amended): with allocation modelled as always succeeding, `insert`
returns the null iterator only through the reseed-collision path; when it does,
`size()` and the seed are unchanged, every `find` result is unchanged (so the
pre-existing entry remains findable, though it may have been pushed into deeper
interior nodes rather than restored to its original slot), and two keys that
are not `keq`-equal share a 32-bit hash under a derived (reseeded) seed.
Requires the hasher to respect key equality. -/
theorem c5_failed_insert_preserves {K V : Type} (keq : K → K → Bool)
    (hasher : K → Nat) (hcomp : ∀ a b : K, keq a b = true → hasher a = hasher b)
    (fuel : Nat) (h h2 : HashArrayMappedTrie K V) (key : K) (v : V)
    (hins : HashArrayMappedTrie.insert keq hasher fuel h key v = .failed h2) :
    h2.count = h.count ∧ h2.seed = h.seed ∧
    (∀ (probe : K) (ff : Nat), fuel ≤ ff →
      HashArrayMappedTrie.find keq hasher ff h2 probe =
        HashArrayMappedTrie.find keq hasher ff h probe) ∧
    ∃ (k0 : K) (s0 : Nat), keq k0 key = false ∧
      hash32 hasher key (next_seed s0) = hash32 hasher k0 (next_seed s0) := by
  simp only [HashArrayMappedTrie.insert] at hins
  cases hrec : insertEntry keq hasher fuel h.root key v h.seed
      (hash32 hasher key h.seed) 0 with
  | out => rw [hrec] at hins; cases hins
  | ok t => rw [hrec] at hins; dsimp only [] at hins; cases hins
  | null t =>
    rw [hrec] at hins
    dsimp only [] at hins
    cases hins
    obtain ⟨hpres, hex⟩ := insertEntry_null_preserves hcomp fuel hrec
    refine ⟨rfl, rfl, ?_, hex⟩
    intro probe ff hff
    simp only [HashArrayMappedTrie.find]
    rw [hpres probe ff hff]

set_option maxRecDepth 10000 in
/-- Witness for C5: the failed insert of key `2^32` into the container holding
key 0 leaves `find 0` unchanged. -/
theorem c5_failed_insert_preserves_witness :
    HashArrayMappedTrie.find natKeyEq natIdHasher 32
        ⟨1, .trie 8192 [.trie 64 [.trie 8 [.trie 2048 [.trie 2097152
          [.trie 4194304 [.entry 0 0]]]]]], 3981806797⟩ 0 =
      HashArrayMappedTrie.find natKeyEq natIdHasher 32
        ⟨1, .trie 8192 [.entry 0 0], 3981806797⟩ 0 :=
  (c5_failed_insert_preserves natKeyEq natIdHasher
    (fun a b hab => by
      have hiff : a = b := by simpa [natKeyEq] using hab
      simp [natIdHasher, hiff]) 32
    ⟨1, .trie 8192 [.entry 0 0], 3981806797⟩
    ⟨1, .trie 8192 [.trie 64 [.trie 8 [.trie 2048 [.trie 2097152
      [.trie 4194304 [.entry 0 0]]]]]], 3981806797⟩ (2 ^ 32) 1 (by rfl)).2.2.1 0 32
    (Nat.le_refl 32)

/-- C9: the embedded operations are pure functions of the container state, the
functors, the fuel and the seed, so two containers agreeing on count, root and
seed are structurally identical (same bitmaps, same child orderings, same
entries) after any identical sequence of insertions. -/
theorem c9_deterministic {K V : Type} (keq : K → K → Bool) (hasher : K → Nat)
    (fuel : Nat) (l : List (K × V)) (h1 h2 : HashArrayMappedTrie K V)
    (hc : h1.count = h2.count) (hr : h1.root = h2.root) (hs : h1.seed = h2.seed) :
    HashArrayMappedTrie.insertSeq keq hasher fuel h1 l =
      HashArrayMappedTrie.insertSeq keq hasher fuel h2 l := by
  have heq : h1 = h2 := by
    cases h1
    cases h2
    simp_all
  rw [heq]

/-- Witness for C9: a freshly constructed container and a cleared one are equal
states, and the same two insertions yield identical structures. -/
theorem c9_deterministic_witness :
    HashArrayMappedTrie.insertSeq natKeyEq natIdHasher 8
      (HashArrayMappedTrie.empty Nat Nat) [(1, 2), (3, 4)] =
    HashArrayMappedTrie.insertSeq natKeyEq natIdHasher 8
      (HashArrayMappedTrie.clear (HashArrayMappedTrie.empty Nat Nat))
      [(1, 2), (3, 4)] :=
  c9_deterministic natKeyEq natIdHasher 8 [(1, 2), (3, 4)] _ _ rfl rfl rfl

/-- C10: `operator++` yields an iterator equal to the original for every
iterator wrapping a node (such as the one a successful insert returns), because
`nextEntryNode` is a stub returning `this`. -/
theorem c10_iterator_increment_fixpoint {K V : Type} (n : Node K V) :
    HAMTConstForwardIterator.inc ⟨some n⟩ =
      (⟨some n⟩ : HAMTConstForwardIterator K V) := rfl

end Foc
